import Mathlib

/-!
Shallow embedding of the padel-point reservation backend
(`src/backend/app`): the booking ledger (`routers/bookings_router.py`),
the overlap predicate (`crud.py`), and the range report
(`routers/reports_router.py`), together with proofs of the claimed
properties.

Timestamps are modelled as integer microsecond ticks; calendar dates as
integer day numbers, with `dayStart d = d * usPerDay` playing the role of
`datetime(d.year, d.month, d.day)`.  Prices (`float` in the source) are
modelled as the exact rationals the stored binary64 values denote; this is
faithful for storage, comparison and selection, while the report's float
*arithmetic* (where every `+` and `-` rounds) is modelled separately by
`flRound` / `generate_report_float` below.
-/

namespace PadelPoint

/-- A timestamp, in microseconds (the resolution of Python `datetime`). -/
abbrev Time := Int

/-- A calendar date, as a day number. -/
abbrev Date := Int

def usPerDay : Int := 86400000000

/-- `datetime(d.year, d.month, d.day)` — midnight at the start of day `d`. -/
def dayStart (d : Date) : Time := d * usPerDay

/-- `start.replace(hour=23, minute=59, second=59, microsecond=999999)`,
used by `list_bookings`. -/
def listDayEnd (d : Date) : Time := d * usPerDay + 86399999999

/-- `datetime(e.year, e.month, e.day, 23, 59, 59)` (microsecond 0),
used by `generate_report`. -/
def reportDayEnd (d : Date) : Time := d * usPerDay + 86399000000

/-- `t.date()` — the calendar day a timestamp falls on. -/
def dateOf (t : Time) : Date := Int.fdiv t usPerDay

/-- `models.Court`. -/
structure Court where
  id : Int
  name : String
  description : Option String
deriving Repr, DecidableEq

/-- `models.Booking` (the relationship attributes are foreign keys
`court_id` / `employee_id`, already present). -/
structure Booking where
  id : Int
  court_id : Int
  customer_name : String
  start_time : Time
  end_time : Time
  price : Rat
  paid : Bool
  employee_id : Option Int
  notes : Option String
  created_at : Time
  receipt_path : Option String
  status : String
deriving Repr, DecidableEq

/-- The database state: the court table, the booking table (in insertion
order), and the next autoincrement primary key for bookings. -/
structure St where
  courts : List Court
  bookings : List Booking
  nextId : Int
deriving Repr, DecidableEq

instance {ε α : Type} [DecidableEq ε] [DecidableEq α] : DecidableEq (Except ε α) := fun x y =>
  match x, y with
  | .ok a, .ok b =>
    if h : a = b then .isTrue (by rw [h]) else .isFalse (by simp [h])
  | .error a, .error b =>
    if h : a = b then .isTrue (by rw [h]) else .isFalse (by simp [h])
  | .ok _, .error _ => .isFalse (by simp)
  | .error _, .ok _ => .isFalse (by simp)

/-- The HTTP error taxonomy (`HTTPException` status codes 400/401/403/404/409). -/
inductive Err where
  | badRequest
  | unauthorized
  | forbidden
  | notFound
  | conflict
deriving Repr, DecidableEq

/-- `schemas.BookingCreate`. -/
structure BookingCreate where
  court_id : Int
  customer_name : String
  start_time : Time
  end_time : Time
  price : Rat
  paid : Option Bool
  notes : Option String
deriving Repr, DecidableEq

/-- `schemas.BookingUpdate`. -/
structure BookingUpdate where
  price : Option Rat
  paid : Option Bool
  notes : Option String
deriving Repr, DecidableEq

/-- The row predicate of the query in `crud.booking_overlaps`:
`Booking.court_id == court_id, Booking.end_time > start, Booking.start_time < end`. -/
def overlapsRow (court_id : Int) (start «end» : Time) (b : Booking) : Bool :=
  b.court_id == court_id && b.end_time > start && b.start_time < «end»

/-- `crud.booking_overlaps`: whether the query (optionally excluding a
booking id, guarded by Python truthiness `if exclude_booking_id:`) returns
any row.  Note: no filter on `status`. -/
def booking_overlaps (st : St) (court_id : Int) (start «end» : Time)
    (exclude_booking_id : Option Int) : Bool :=
  let rows : List Booking := st.bookings.filter (overlapsRow court_id start «end»)
  let rows : List Booking := match exclude_booking_id with
    | some i => if i != 0 then rows.filter (fun b => b.id != i) else rows
    | none => rows
  !rows.isEmpty

/-- `bookings_router.create_booking`.  Checks, in source order: the court
exists (400), `start_time < end_time` (400), no overlap (409); then inserts
the new row with `status="active"`. -/
def create_booking (st : St) (payload : BookingCreate) (current_user_id : Option Int)
    (now : Time) : Except Err (Booking × St) :=
  match st.courts.find? (fun c => c.id == payload.court_id) with
  | none => .error .badRequest
  | some _ =>
    if payload.start_time ≥ payload.end_time then
      .error .badRequest
    else if booking_overlaps st payload.court_id payload.start_time payload.end_time none then
      .error .conflict
    else
      let b : Booking :=
        { id := st.nextId
          court_id := payload.court_id
          customer_name := payload.customer_name
          start_time := payload.start_time
          end_time := payload.end_time
          price := payload.price
          paid := payload.paid.getD false
          employee_id := current_user_id
          notes := payload.notes
          created_at := now
          receipt_path := none
          status := "active" }
      .ok (b, { st with bookings := st.bookings ++ [b], nextId := st.nextId + 1 })

/-- The field assignments of `bookings_router.update_booking`: only
`price`, `paid`, `notes`, each when present in the payload. -/
def applyUpdate (payload : BookingUpdate) (b : Booking) : Booking :=
  let b1 := match payload.price with
    | some v => { b with price := v }
    | none => b
  let b2 := match payload.paid with
    | some v => { b1 with paid := v }
    | none => b1
  match payload.notes with
  | some v => { b2 with notes := v }
  | none => b2

/-- `bookings_router.update_booking`: 404 when the id is absent, otherwise
mutate price/paid/notes of the fetched row in place. -/
def update_booking (st : St) (booking_id : Int) (payload : BookingUpdate) :
    Except Err (Booking × St) :=
  match st.bookings.find? (fun b => b.id == booking_id) with
  | none => .error .notFound
  | some b =>
    let b2 := applyUpdate payload b
    .ok (b2, { st with
      bookings := st.bookings.map (fun x => if x.id == booking_id then b2 else x) })

/-- `bookings_router.delete_booking`: 404 when absent, otherwise the soft
delete `b.status = "deleted"`. -/
def delete_booking (st : St) (booking_id : Int) : Except Err St :=
  match st.bookings.find? (fun b => b.id == booking_id) with
  | none => .error .notFound
  | some _ =>
    .ok { st with
      bookings := st.bookings.map (fun x =>
        if x.id == booking_id then { x with status := "deleted" } else x) }

/-- The optional `date` query parameter of `list_bookings`, carrying the
three cases of the source: absent, present but unparseable, parsed. -/
inductive DateParam where
  | absent
  | invalid
  | valid (d : Date)
deriving Repr, DecidableEq

/-- `ORDER BY start_time` (ascending). -/
def sortByStart (bs : List Booking) : List Booking :=
  bs.insertionSort (fun a b => a.start_time ≤ b.start_time)

/-- `bookings_router.list_bookings`: no authentication dependency; 400 on a
malformed date; with a date, rows with `start_time` in
`[day 00:00:00, day 23:59:59.999999]`; otherwise all rows.  No status
filter: deleted bookings are listed too. -/
def list_bookings (st : St) (date : DateParam) : Except Err (List Booking) :=
  match date with
  | .invalid => .error .badRequest
  | .absent => .ok (sortByStart st.bookings)
  | .valid d =>
    .ok (sortByStart (st.bookings.filter (fun b =>
      dayStart d ≤ b.start_time && b.start_time ≤ listDayEnd d)))

/-- `bookings_router.get_booking`: no authentication dependency; 404 when
the id is absent, otherwise the full row. -/
def get_booking (st : St) (booking_id : Int) : Except Err Booking :=
  match st.bookings.find? (fun b => b.id == booking_id) with
  | none => .error .notFound
  | some b => .ok b

/-- One cell of the `per_day` / `per_court` aggregation:
`{"count": 0, "revenue": 0.0}`. -/
structure DayAgg where
  count : Nat
  revenue : Rat
deriving Repr, DecidableEq

/-- One step of the `defaultdict` accumulation in `generate_report`:
`m[key]["count"] += 1; m[key]["revenue"] += price`, on an
insertion-ordered association list. -/
def bump (key : Int) (price : Rat) : List (Int × DayAgg) → List (Int × DayAgg)
  | [] => [(key, ⟨1, price⟩)]
  | (k, a) :: rest =>
    if k == key then (k, ⟨a.count + 1, a.revenue + price⟩) :: rest
    else (k, a) :: bump key price rest

/-- Looking a key up in such a map, with the defaultdict default `{0, 0.0}`. -/
def getAgg (m : List (Int × DayAgg)) (key : Int) : DayAgg :=
  match m.find? (fun kv => kv.1 == key) with
  | some kv => kv.2
  | none => ⟨0, 0⟩

/-- The projection of a booking in the admin report's `bookings` list. -/
structure BookingOut where
  id : Int
  court_id : Int
  start_time : Time
  end_time : Time
  price : Rat
  paid : Bool
  status : String
deriving Repr, DecidableEq

def projBooking (b : Booking) : BookingOut :=
  ⟨b.id, b.court_id, b.start_time, b.end_time, b.price, b.paid, b.status⟩

/-- The payload of `generate_report` (minus the echoed date strings). -/
structure Report where
  bookings_count : Nat
  total_revenue : Rat
  paid_amount : Rat
  unpaid_amount : Rat
  per_day : List (Int × DayAgg)
  per_court : List (Int × DayAgg)
  bookings : List BookingOut
deriving Repr, DecidableEq

/-- The range predicate of the report query:
`Booking.start_time >= start_dt, Booking.start_time <= end_dt` with
`start_dt = datetime(s...)` and `end_dt = datetime(e..., 23, 59, 59)`. -/
def inReportRange (s e : Date) (b : Booking) : Bool :=
  dayStart s ≤ b.start_time && b.start_time ≤ reportDayEnd e

/-- `reports_router.generate_report`, for already-parsed dates (an
unparseable date string is a 400 before this logic runs): 400 when
`s > e`; for a non-admin, the count of active bookings in range with every
other field zeroed or emptied; for an admin, the full aggregates over all
bookings in range with no status filter. -/
def generate_report (st : St) (s e : Date) (role : String) : Except Err Report :=
  if s > e then .error .badRequest
  else
    let bookings := st.bookings.filter (inReportRange s e)
    if ¬ (role == "admin") then
      let acts := bookings.filter (fun b => b.status == "active")
      .ok ⟨acts.length, 0, 0, 0, [], [], []⟩
    else
      let total := (bookings.map Booking.price).sum
      let paid := ((bookings.filter Booking.paid).map Booking.price).sum
      let unpaid := total - paid
      let per_day := bookings.foldl
        (fun m b => bump (dateOf b.start_time) b.price m) []
      let per_court := bookings.foldl
        (fun m b => bump b.court_id b.price m) []
      .ok ⟨bookings.length, total, paid, unpaid, per_day, per_court,
        bookings.map projBooking⟩

/-- `courts_router.create_court` (admin only; the identity layer is a
collaborator, so the operation carries the already-authorized insert). -/
def create_court (st : St) (c : Court) : St :=
  { st with courts := st.courts ++ [c] }

/-- The mutating operations of the booking ledger, as invoked by the HTTP
layer: each carries its request payload. -/
inductive Op where
  | create (payload : BookingCreate) (current_user_id : Option Int) (now : Time)
  | update (booking_id : Int) (payload : BookingUpdate)
  | cancel (booking_id : Int)
  | addCourt (c : Court)
deriving Repr

/-- Running one operation against the database: a raised `HTTPException`
aborts the request before any insert/commit, leaving the state unchanged. -/
def applyOp (st : St) : Op → St
  | .create payload uid now =>
    match create_booking st payload uid now with
    | .ok (_, st2) => st2
    | .error _ => st
  | .update bid payload =>
    match update_booking st bid payload with
    | .ok (_, st2) => st2
    | .error _ => st
  | .cancel bid =>
    match delete_booking st bid with
    | .ok st2 => st2
    | .error _ => st
  | .addCourt c => create_court st c

/-- The empty database. -/
def initSt : St := ⟨[], [], 1⟩

/-- Running a whole request history. -/
def runOps (ops : List Op) : St := ops.foldl applyOp initSt

/-- A state is reachable when some request history produces it. -/
def Reachable (st : St) : Prop := ∃ ops : List Op, runOps ops = st

/-! ## Derived notions and helper lemmas -/

/-- The spec's overlap relation on two stored bookings:
`a.start < b.end AND b.start < a.end`. -/
def Overlaps (a b : Booking) : Prop :=
  a.start_time < b.end_time ∧ b.start_time < a.end_time

instance (a b : Booking) : Decidable (Overlaps a b) :=
  inferInstanceAs (Decidable (_ ∧ _))

/-- Two bookings on the same court never overlap. -/
def PairNoOverlap (a b : Booking) : Prop :=
  a.court_id = b.court_id → ¬ Overlaps a b

theorem pairNoOverlap_symm : Symmetric PairNoOverlap := by
  intro a b h hc hov
  exact h hc.symm ⟨hov.2, hov.1⟩

/-- The ledger invariant maintained by the router operations: same-court
bookings are pairwise non-overlapping (regardless of status, since the
source's overlap query has no status filter), ids are pairwise distinct,
and every id is below the autoincrement counter. -/
def Inv (st : St) : Prop :=
  st.bookings.Pairwise PairNoOverlap ∧
  st.bookings.Pairwise (fun a b => a.id ≠ b.id) ∧
  ∀ b ∈ st.bookings, b.id < st.nextId

theorem booking_overlaps_eq_false_iff (st : St) (c : Int) (s e : Time) :
    booking_overlaps st c s e none = false ↔
      ∀ b ∈ st.bookings, overlapsRow c s e b = false := by
  simp [booking_overlaps, List.isEmpty_iff, List.filter_eq_nil_iff]

theorem overlapsRow_false {c : Int} {s e : Time} {a : Booking}
    (h : overlapsRow c s e a = false) (hc : a.court_id = c) :
    ¬ (s < a.end_time ∧ a.start_time < e) := by
  intro hcon
  simp [overlapsRow, hc, hcon.1, hcon.2] at h

theorem applyUpdate_frame (p : BookingUpdate) (b : Booking) :
    (applyUpdate p b).id = b.id ∧ (applyUpdate p b).court_id = b.court_id ∧
    (applyUpdate p b).customer_name = b.customer_name ∧
    (applyUpdate p b).start_time = b.start_time ∧
    (applyUpdate p b).end_time = b.end_time ∧
    (applyUpdate p b).employee_id = b.employee_id ∧
    (applyUpdate p b).created_at = b.created_at ∧
    (applyUpdate p b).status = b.status ∧
    (applyUpdate p b).receipt_path = b.receipt_path := by
  rcases p with ⟨pp, pd, pn⟩
  cases pp <;> cases pd <;> cases pn <;> simp [applyUpdate]

theorem applyUpdate_price (p : BookingUpdate) (b : Booking) :
    (applyUpdate p b).price = p.price.getD b.price := by
  rcases p with ⟨pp, pd, pn⟩
  cases pp <;> cases pd <;> cases pn <;> simp [applyUpdate]

/-- Inversion of a successful `create_booking`. -/
theorem create_booking_ok {st : St} {p : BookingCreate} {uid : Option Int}
    {now : Time} {b : Booking} {st2 : St}
    (h : create_booking st p uid now = .ok (b, st2)) :
    booking_overlaps st p.court_id p.start_time p.end_time none = false ∧
    p.start_time < p.end_time ∧
    b = { id := st.nextId, court_id := p.court_id,
          customer_name := p.customer_name, start_time := p.start_time,
          end_time := p.end_time, price := p.price,
          paid := p.paid.getD false, employee_id := uid, notes := p.notes,
          created_at := now, receipt_path := none, status := "active" } ∧
    st2 = { st with bookings := st.bookings ++ [b], nextId := st.nextId + 1 } := by
  unfold create_booking at h
  split at h
  · exact absurd h (by simp)
  · split at h
    · exact absurd h (by simp)
    · split at h
      · exact absurd h (by simp)
      · rename_i hse hov
        rw [Except.ok.injEq, Prod.mk.injEq] at h
        obtain ⟨hb, hst⟩ := h
        rw [ge_iff_le, not_le] at hse
        refine ⟨by simpa using hov, hse, hb.symm, ?_⟩
        rw [← hst, ← hb]

/-- Inversion of a successful `update_booking`. -/
theorem update_booking_ok {st : St} {bid : Int} {p : BookingUpdate}
    {b2 : Booking} {st2 : St}
    (h : update_booking st bid p = .ok (b2, st2)) :
    ∃ b, st.bookings.find? (fun x => x.id == bid) = some b ∧
      b2 = applyUpdate p b ∧
      st2 = { st with
        bookings := st.bookings.map (fun x => if x.id == bid then b2 else x) } := by
  unfold update_booking at h
  split at h
  · exact absurd h (by simp)
  · rename_i b hb
    rw [Except.ok.injEq, Prod.mk.injEq] at h
    obtain ⟨h1, h2⟩ := h
    exact ⟨b, hb, h1.symm, by rw [← h2, ← h1]⟩

/-- Inversion of a successful `delete_booking`. -/
theorem delete_booking_ok {st : St} {bid : Int} {st2 : St}
    (h : delete_booking st bid = .ok st2) :
    st2 = { st with
      bookings := st.bookings.map (fun x =>
        if x.id == bid then { x with status := "deleted" } else x) } := by
  unfold delete_booking at h
  split at h
  · exact absurd h (by simp)
  · rw [Except.ok.injEq] at h
    exact h.symm

/-- In a table with pairwise-distinct ids, the row `find?` locates for an
id is the only row with that id. -/
theorem find?_id_unique {l : List Booking}
    (hids : l.Pairwise (fun a b => a.id ≠ b.id)) {bid : Int} {b x : Booking}
    (hf : l.find? (fun y => y.id == bid) = some b)
    (hx : x ∈ l) (hxid : x.id = bid) : x = b := by
  have hb := List.mem_of_find?_eq_some hf
  have hbid : b.id = bid := by simpa using List.find?_some hf
  by_contra hne
  exact hids.forall (fun a c hac => Ne.symm hac) hx hb hne (by rw [hxid, hbid])

/-- A field-wise booking rewrite that keeps id, court and interval keeps
the ledger invariant. -/
theorem inv_map (st : St) (g : Booking → Booking)
    (hg : ∀ x ∈ st.bookings,
      (g x).id = x.id ∧ (g x).court_id = x.court_id ∧
      (g x).start_time = x.start_time ∧ (g x).end_time = x.end_time)
    (h : Inv st) : Inv { st with bookings := st.bookings.map g } := by
  obtain ⟨hpo, hid, hbound⟩ := h
  refine ⟨?_, ?_, ?_⟩
  · rw [List.pairwise_map]
    refine hpo.imp_of_mem (fun {a b} ha hb hab => ?_)
    obtain ⟨_, hc1, hs1, he1⟩ := hg a ha
    obtain ⟨_, hc2, hs2, he2⟩ := hg b hb
    intro hc hov
    refine hab (by rw [← hc1, ← hc2]; exact hc) ?_
    exact ⟨by rw [← hs1, ← he2]; exact hov.1, by rw [← hs2, ← he1]; exact hov.2⟩
  · rw [List.pairwise_map]
    refine hid.imp_of_mem (fun {a b} ha hb hab => ?_)
    obtain ⟨hi1, _, _, _⟩ := hg a ha
    obtain ⟨hi2, _, _, _⟩ := hg b hb
    rw [hi1, hi2]
    exact hab
  · intro b hb
    rw [List.mem_map] at hb
    obtain ⟨x, hx, rfl⟩ := hb
    obtain ⟨hi, _, _, _⟩ := hg x hx
    rw [hi]
    exact hbound x hx

theorem inv_applyOp (st : St) (op : Op) (h : Inv st) : Inv (applyOp st op) := by
  cases op with
  | addCourt c => exact h
  | create p uid now =>
    cases hcb : create_booking st p uid now with
    | error e =>
      have hred : applyOp st (.create p uid now) = st := by simp [applyOp, hcb]
      rw [hred]
      exact h
    | ok res =>
      obtain ⟨b, st2⟩ := res
      have hred : applyOp st (.create p uid now) = st2 := by simp [applyOp, hcb]
      rw [hred]
      obtain ⟨hov, hlt, hb, hst2⟩ := create_booking_ok hcb
      subst hst2
      subst hb
      obtain ⟨hpo, hid, hbound⟩ := h
      rw [booking_overlaps_eq_false_iff] at hov
      refine ⟨?_, ?_, ?_⟩
      · rw [List.pairwise_append]
        refine ⟨hpo, List.pairwise_singleton _ _, ?_⟩
        intro a ha b2 hb2
        rw [List.mem_singleton] at hb2
        subst hb2
        intro hc hovab
        exact overlapsRow_false (hov a ha) hc ⟨hovab.2, hovab.1⟩
      · rw [List.pairwise_append]
        refine ⟨hid, List.pairwise_singleton _ _, ?_⟩
        intro a ha b2 hb2
        rw [List.mem_singleton] at hb2
        subst hb2
        have := hbound a ha
        intro he
        rw [he] at this
        simp at this
      · intro b2 hb2
        rw [List.mem_append, List.mem_singleton] at hb2
        rcases hb2 with hb2 | hb2
        · have := hbound b2 hb2
          change b2.id < st.nextId + 1
          omega
        · subst hb2
          change st.nextId < st.nextId + 1
          omega
  | update bid p =>
    cases hub : update_booking st bid p with
    | error e =>
      have hred : applyOp st (.update bid p) = st := by simp [applyOp, hub]
      rw [hred]
      exact h
    | ok res =>
      obtain ⟨b2, st2⟩ := res
      have hred : applyOp st (.update bid p) = st2 := by simp [applyOp, hub]
      rw [hred]
      obtain ⟨b, hfind, hb2, hst2⟩ := update_booking_ok hub
      subst hst2
      refine inv_map st _ ?_ h
      intro x hx
      by_cases hxb : (x.id == bid) = true
      · have hxid : x.id = bid := by simpa using hxb
        have hxeq : x = b := find?_id_unique h.2.1 hfind hx hxid
        obtain ⟨hi, hc, _, hs, he, _, _, _, _⟩ := applyUpdate_frame p b
        subst hb2
        simp only [hxb, if_true]
        exact ⟨by rw [hi, hxeq], by rw [hc, hxeq], by rw [hs, hxeq], by rw [he, hxeq]⟩
      · simp [hxb]
  | cancel bid =>
    cases hdb : delete_booking st bid with
    | error e =>
      have hred : applyOp st (.cancel bid) = st := by simp [applyOp, hdb]
      rw [hred]
      exact h
    | ok st2 =>
      have hred : applyOp st (.cancel bid) = st2 := by simp [applyOp, hdb]
      rw [hred]
      have hst2 := delete_booking_ok hdb
      subst hst2
      refine inv_map st _ ?_ h
      intro x hx
      by_cases hxb : (x.id == bid) = true <;> simp [hxb]

theorem inv_init : Inv initSt := by
  simp [Inv, initSt]

theorem inv_foldl (ops : List Op) : ∀ s : St, Inv s → Inv (ops.foldl applyOp s) := by
  induction ops with
  | nil => exact fun s hs => hs
  | cons op rest ih => exact fun s hs => ih _ (inv_applyOp s op hs)

theorem inv_reachable {st : St} (h : Reachable st) : Inv st := by
  obtain ⟨ops, rfl⟩ := h
  exact inv_foldl ops initSt inv_init

/-- Prop-level reading of the query row predicate. -/
theorem overlapsRow_iff (c : Int) (s e : Time) (b : Booking) :
    overlapsRow c s e b = true ↔ (b.court_id = c ∧ s < b.end_time ∧ b.start_time < e) := by
  simp [overlapsRow, and_assoc]

/-! ## Concrete scenarios used by witnesses and counterexamples -/

def courtOne : Court := ⟨1, "Court 1", none⟩

/-- 09:00–10:00 on court 1, $20, paid (times as microsecond offsets). -/
def payloadA : BookingCreate := ⟨1, "alice", 0, 3600000000, 20, some true, none⟩

/-- 10:00–11:00 on court 1, $30, unpaid. -/
def payloadB : BookingCreate := ⟨1, "bob", 3600000000, 7200000000, 30, none, none⟩

def opsTwoBookings : List Op :=
  [.addCourt courtOne, .create payloadA (some 1) 0, .create payloadB (some 1) 0]

def stTwoBookings : St := runOps opsTwoBookings

def bookingA : Booking :=
  ⟨1, 1, "alice", 0, 3600000000, 20, true, some 1, none, 0, none, "active"⟩

def bookingB : Booking :=
  ⟨2, 1, "bob", 3600000000, 7200000000, 30, false, some 1, none, 0, none, "active"⟩

/-- Court 1 registered; booking 1 created on `[09:00,10:00)`, then cancelled. -/
def opsCancelledSlot : List Op :=
  [.addCourt courtOne, .create payloadA (some 1) 0, .cancel 1]

def stCancelledSlot : St := runOps opsCancelledSlot

/-! ## Claims -/

/-- C1: the code violates the claim.  After cancelling booking 1 (its
status is `"deleted"` and it is the only booking), re-creating its exact
interval on the same court is rejected with `Conflict`: the overlap query
in `crud.booking_overlaps` has no `status` filter, so deleted bookings do
block creation. -/
theorem cancelled_booking_still_blocks_creation :
    stCancelledSlot.bookings.map Booking.status = ["deleted"] ∧
    create_booking stCancelledSlot payloadA (some 2) 0 = .error .conflict := by
  decide

/-- C2: in every reachable ledger state, two bookings on the same court
with status `"active"` and distinct ids never overlap; reachability closes
the state under create, update and cancel. -/
theorem active_same_court_bookings_never_overlap {st : St} (hreach : Reachable st)
    {a b : Booking} (ha : a ∈ st.bookings) (hb : b ∈ st.bookings)
    (hcourt : a.court_id = b.court_id) (hsa : a.status = "active")
    (hsb : b.status = "active") (hids : a.id ≠ b.id) : ¬ Overlaps a b := by
  obtain ⟨hpo, _, _⟩ := inv_reachable hreach
  have hne : a ≠ b := fun he => hids (by rw [he])
  exact hpo.forall pairNoOverlap_symm ha hb hne hcourt

theorem active_same_court_bookings_never_overlap_witness :
    Reachable stTwoBookings ∧ bookingA ∈ stTwoBookings.bookings ∧
    bookingB ∈ stTwoBookings.bookings ∧ bookingA.court_id = bookingB.court_id ∧
    bookingA.status = "active" ∧ bookingB.status = "active" ∧
    bookingA.id ≠ bookingB.id ∧ ¬ Overlaps bookingA bookingB :=
  ⟨⟨opsTwoBookings, rfl⟩, by decide, by decide, by decide, by decide, by decide,
    by decide,
    active_same_court_bookings_never_overlap ⟨opsTwoBookings, rfl⟩ (by decide)
      (by decide) (by decide) (by decide) (by decide) (by decide)⟩

/-- C3: the row predicate of the overlap query is exactly the half-open
test `s1 < e2 AND s2 < e1` on same-court intervals; touching intervals
(one ending where the other starts) do not conflict, and intervals on
different courts never conflict. -/
theorem overlap_predicate_halfopen (a b : Booking)
    (ha : a.start_time < a.end_time) (hb : b.start_time < b.end_time) :
    (a.court_id = b.court_id →
      (overlapsRow a.court_id a.start_time a.end_time b = true ↔
        (a.start_time < b.end_time ∧ b.start_time < a.end_time))) ∧
    (a.end_time = b.start_time →
      overlapsRow a.court_id a.start_time a.end_time b = false) ∧
    (a.court_id ≠ b.court_id →
      overlapsRow a.court_id a.start_time a.end_time b = false) := by
  refine ⟨?_, ?_, ?_⟩
  · intro hc
    simp [overlapsRow_iff, hc, and_comm]
  · intro he
    rw [Bool.eq_false_iff]
    intro hrow
    obtain ⟨-, -, h2⟩ := (overlapsRow_iff _ _ _ _).mp hrow
    rw [he] at h2
    exact lt_irrefl _ h2
  · intro hcne
    rw [Bool.eq_false_iff]
    intro hrow
    obtain ⟨h1, -, -⟩ := (overlapsRow_iff _ _ _ _).mp hrow
    exact hcne h1.symm

theorem overlap_predicate_halfopen_witness :
    bookingA.start_time < bookingA.end_time ∧
    bookingB.start_time < bookingB.end_time ∧
    ((bookingA.court_id = bookingB.court_id →
      (overlapsRow bookingA.court_id bookingA.start_time bookingA.end_time bookingB = true ↔
        (bookingA.start_time < bookingB.end_time ∧ bookingB.start_time < bookingA.end_time))) ∧
    (bookingA.end_time = bookingB.start_time →
      overlapsRow bookingA.court_id bookingA.start_time bookingA.end_time bookingB = false) ∧
    (bookingA.court_id ≠ bookingB.court_id →
      overlapsRow bookingA.court_id bookingA.start_time bookingA.end_time bookingB = false)) :=
  ⟨by decide, by decide,
    overlap_predicate_halfopen bookingA bookingB (by decide) (by decide)⟩

/-- C4: creation with a nonexistent court, or with `start ≥ end`, raises
`BadRequest`, and either failure leaves the state unchanged. -/
theorem create_invalid_input_rejected (st : St) (p : BookingCreate)
    (uid : Option Int) (now : Time)
    (h : st.courts.find? (fun c => c.id == p.court_id) = none ∨
         p.end_time ≤ p.start_time) :
    create_booking st p uid now = .error .badRequest ∧
    applyOp st (.create p uid now) = st := by
  have hcb : create_booking st p uid now = .error .badRequest := by
    rcases h with h | h
    · unfold create_booking
      rw [h]
    · unfold create_booking
      cases st.courts.find? (fun c => c.id == p.court_id) with
      | none => rfl
      | some c => rw [if_pos h]
  exact ⟨hcb, by simp [applyOp, hcb]⟩

theorem create_invalid_input_rejected_witness :
    (initSt.courts.find? (fun c => c.id == payloadA.court_id) = none ∨
      payloadA.end_time ≤ payloadA.start_time) ∧
    create_booking initSt payloadA none 0 = .error .badRequest ∧
    applyOp initSt (.create payloadA none 0) = initSt :=
  ⟨Or.inl (by decide),
    create_invalid_input_rejected initSt payloadA none 0 (Or.inl (by decide))⟩

/-! ## Report aggregation lemmas and claims C5-C7 -/

/-- The rows the report query returns: start time within
`[s 00:00:00, e 23:59:59]`, with no condition on status. -/
def matchedBookings (st : St) (s e : Date) : List Booking :=
  st.bookings.filter (inReportRange s e)

theorem getAgg_nil (k : Int) : getAgg [] k = ⟨0, 0⟩ := rfl

theorem bump_cons_eq (k : Int) (p : Rat) (a : DayAgg) (rest : List (Int × DayAgg)) :
    bump k p ((k, a) :: rest) = (k, ⟨a.count + 1, a.revenue + p⟩) :: rest := by
  simp [bump]

theorem bump_cons_ne (k k1 : Int) (p : Rat) (a : DayAgg)
    (rest : List (Int × DayAgg)) (h : k1 ≠ k) :
    bump k p ((k1, a) :: rest) = (k1, a) :: bump k p rest := by
  simp [bump, h]

theorem getAgg_cons (k1 : Int) (a : DayAgg) (rest : List (Int × DayAgg)) (k2 : Int) :
    getAgg ((k1, a) :: rest) k2 = if k1 = k2 then a else getAgg rest k2 := by
  by_cases h : k1 = k2 <;> simp [getAgg, h]

theorem getAgg_bump (m : List (Int × DayAgg)) (k k2 : Int) (p : Rat) :
    getAgg (bump k p m) k2 =
      if k2 = k then ⟨(getAgg m k2).count + 1, (getAgg m k2).revenue + p⟩
      else getAgg m k2 := by
  induction m with
  | nil =>
    show getAgg [(k, ⟨1, p⟩)] k2 = _
    rw [getAgg_cons]
    by_cases h : k2 = k
    · subst h
      simp [getAgg]
    · simp [h, Ne.symm h, getAgg]
  | cons kv rest ih =>
    obtain ⟨k1, a⟩ := kv
    by_cases h1 : k1 = k
    · subst h1
      rw [bump_cons_eq, getAgg_cons, getAgg_cons]
      by_cases h2 : k1 = k2
      · subst h2
        simp
      · simp [h2]
        rw [if_neg (fun h => h2 (Eq.symm h))]
    · rw [bump_cons_ne k k1 p a rest h1, getAgg_cons, getAgg_cons, ih]
      split_ifs with h2 h3 h3
      · exact absurd (h3.symm.trans h2.symm).symm h1
      · rfl
      · rfl
      · rfl

theorem getAgg_foldl_bump (key : Booking → Int) (bs : List Booking)
    (m : List (Int × DayAgg)) (k : Int) :
    getAgg (bs.foldl (fun m2 b => bump (key b) b.price m2) m) k =
      ⟨(getAgg m k).count + (bs.filter (fun b => key b == k)).length,
       (getAgg m k).revenue + ((bs.filter (fun b => key b == k)).map Booking.price).sum⟩ := by
  induction bs generalizing m with
  | nil => simp
  | cons b rest ih =>
    rw [List.foldl_cons, ih, getAgg_bump]
    by_cases h : k = key b
    · have hkb : (key b == k) = true := by simp [h]
      rw [if_pos h]
      simp only [List.filter_cons, hkb, if_true, List.length_cons, List.map_cons,
        List.sum_cons]
      refine congrArg₂ DayAgg.mk (by omega) (by ring)
    · have hkb : (key b == k) = false := by simp [Ne.symm h]
      rw [if_neg h]
      simp only [List.filter_cons, hkb, Bool.false_eq_true, if_false]

/-- Unfolding of the admin branch of `generate_report`. -/
theorem generate_report_admin (st : St) (s e : Date) (hse : s ≤ e) :
    generate_report st s e "admin" =
      .ok ⟨(matchedBookings st s e).length,
           ((matchedBookings st s e).map Booking.price).sum,
           (((matchedBookings st s e).filter Booking.paid).map Booking.price).sum,
           ((matchedBookings st s e).map Booking.price).sum -
             (((matchedBookings st s e).filter Booking.paid).map Booking.price).sum,
           (matchedBookings st s e).foldl
             (fun m b => bump (dateOf b.start_time) b.price m) [],
           (matchedBookings st s e).foldl (fun m b => bump b.court_id b.price m) [],
           (matchedBookings st s e).map projBooking⟩ := by
  unfold generate_report matchedBookings
  rw [if_neg (not_lt.mpr hse)]
  simp

/-- C5: a non-admin principal receives only the count of active bookings
with start time in range; every revenue field is zero and `per_day`,
`per_court` and `bookings` are empty, whatever the underlying data. -/
theorem report_nonadmin_redacted (st : St) (s e : Date) (role : String)
    (hrole : role ≠ "admin") (hse : s ≤ e) :
    generate_report st s e role =
      .ok ⟨(st.bookings.filter
              (fun b => b.status == "active" && inReportRange s e b)).length,
           0, 0, 0, [], [], []⟩ := by
  unfold generate_report
  rw [if_neg (not_lt.mpr hse)]
  rw [if_pos (fun hadm => hrole (by simpa using hadm))]
  rw [List.filter_filter]

theorem report_nonadmin_redacted_witness :
    ("employee" : String) ≠ "admin" ∧ (0 : Int) ≤ 0 ∧
    generate_report stTwoBookings 0 0 "employee" =
      .ok ⟨(stTwoBookings.bookings.filter
              (fun b => b.status == "active" && inReportRange 0 0 b)).length,
           0, 0, 0, [], [], []⟩ :=
  ⟨by decide, by decide,
    report_nonadmin_redacted stTwoBookings 0 0 "employee" (by decide) (by decide)⟩

/-- C7: every admin aggregate — count, total and paid revenue, the per-day
and per-court maps, and the bookings list — is computed over every booking
whose start time is in range, with no status filter, so deleted bookings
still count toward revenue and counts. -/
theorem report_admin_counts_all_statuses (st : St) (s e : Date) (hse : s ≤ e)
    (r : Report) (h : generate_report st s e "admin" = .ok r) :
    r.bookings_count = (matchedBookings st s e).length ∧
    r.total_revenue = ((matchedBookings st s e).map Booking.price).sum ∧
    r.paid_amount =
      (((matchedBookings st s e).filter Booking.paid).map Booking.price).sum ∧
    (∀ d : Date, getAgg r.per_day d =
      ⟨((matchedBookings st s e).filter (fun b => dateOf b.start_time == d)).length,
       (((matchedBookings st s e).filter
           (fun b => dateOf b.start_time == d)).map Booking.price).sum⟩) ∧
    (∀ c : Int, getAgg r.per_court c =
      ⟨((matchedBookings st s e).filter (fun b => b.court_id == c)).length,
       (((matchedBookings st s e).filter
           (fun b => b.court_id == c)).map Booking.price).sum⟩) ∧
    r.bookings = (matchedBookings st s e).map projBooking := by
  rw [generate_report_admin st s e hse, Except.ok.injEq] at h
  subst h
  refine ⟨rfl, rfl, rfl, ?_, ?_, rfl⟩
  · intro d
    rw [getAgg_foldl_bump (fun b => dateOf b.start_time) (matchedBookings st s e) [] d]
    simp [getAgg]
  · intro c
    rw [getAgg_foldl_bump (fun b => b.court_id) (matchedBookings st s e) [] c]
    simp [getAgg]

/-- Bookings A ($20) and B ($30) on day 0, with A cancelled. -/
def stABCancelled : St := runOps (opsTwoBookings ++ [.cancel 1])

def reportABCancelled : Report :=
  ⟨2, 50, 20, 30, [(0, ⟨2, 50⟩)], [(1, ⟨2, 50⟩)],
   [⟨1, 1, 0, 3600000000, 20, true, "deleted"⟩,
    ⟨2, 1, 3600000000, 7200000000, 30, false, "active"⟩]⟩

theorem report_admin_counts_all_statuses_witness :
    (0 : Int) ≤ 0 ∧
    generate_report stABCancelled 0 0 "admin" = .ok reportABCancelled ∧
    (stABCancelled.bookings.map Booking.status = ["deleted", "active"]) ∧
    (reportABCancelled.bookings_count = (matchedBookings stABCancelled 0 0).length ∧
     reportABCancelled.total_revenue =
       ((matchedBookings stABCancelled 0 0).map Booking.price).sum ∧
     reportABCancelled.paid_amount =
       (((matchedBookings stABCancelled 0 0).filter Booking.paid).map
         Booking.price).sum ∧
     (∀ d : Date, getAgg reportABCancelled.per_day d =
       ⟨((matchedBookings stABCancelled 0 0).filter
           (fun b => dateOf b.start_time == d)).length,
        (((matchedBookings stABCancelled 0 0).filter
            (fun b => dateOf b.start_time == d)).map Booking.price).sum⟩) ∧
     (∀ c : Int, getAgg reportABCancelled.per_court c =
       ⟨((matchedBookings stABCancelled 0 0).filter (fun b => b.court_id == c)).length,
        (((matchedBookings stABCancelled 0 0).filter
            (fun b => b.court_id == c)).map Booking.price).sum⟩) ∧
     reportABCancelled.bookings = (matchedBookings stABCancelled 0 0).map projBooking) :=
  ⟨by decide, by with_unfolding_all rfl, by decide,
    report_admin_counts_all_statuses stABCancelled 0 0 (by decide) reportABCancelled
      (by with_unfolding_all rfl)⟩

/-! ## Claims C8-C10 -/

/-- Equality of every booking field other than `price`, `paid`, `notes`. -/
def FrameEq (x y : Booking) : Prop :=
  y.id = x.id ∧ y.court_id = x.court_id ∧ y.customer_name = x.customer_name ∧
  y.start_time = x.start_time ∧ y.end_time = x.end_time ∧
  y.employee_id = x.employee_id ∧ y.created_at = x.created_at ∧
  y.status = x.status ∧ y.receipt_path = x.receipt_path

/-- C8: on a table with distinct primary keys, a successful update leaves
courts and the id counter alone and rewrites each row to one agreeing on
every field except possibly `price`, `paid` and `notes`; update never
raises `Conflict` (no overlap check is run). -/
theorem update_mutates_only_price_paid_notes (st : St) (bid : Int)
    (p : BookingUpdate)
    (hids : st.bookings.Pairwise (fun a b => a.id ≠ b.id)) :
    update_booking st bid p ≠ Except.error Err.conflict ∧
    ∀ b2 st2, update_booking st bid p = Except.ok (b2, st2) →
      st2.courts = st.courts ∧ st2.nextId = st.nextId ∧
      List.Forall₂ FrameEq st.bookings st2.bookings := by
  constructor
  · unfold update_booking
    split <;> simp
  · intro b2 st2 h
    obtain ⟨b, hfind, hb2, hst2⟩ := update_booking_ok h
    subst hst2
    refine ⟨rfl, rfl, ?_⟩
    rw [List.forall₂_map_right_iff, List.forall₂_same]
    intro x hx
    show FrameEq x (if (x.id == bid) = true then b2 else x)
    by_cases hxb : (x.id == bid) = true
    · have hxid : x.id = bid := by simpa using hxb
      have hxeq : x = b := find?_id_unique hids hfind hx hxid
      subst hb2
      rw [if_pos hxb, hxeq]
      exact applyUpdate_frame p b
    · rw [if_neg hxb]
      exact ⟨rfl, rfl, rfl, rfl, rfl, rfl, rfl, rfl, rfl⟩

def updPayload : BookingUpdate := ⟨some 99, some false, some "vip"⟩

theorem update_mutates_only_price_paid_notes_witness :
    stTwoBookings.bookings.Pairwise (fun a b => a.id ≠ b.id) ∧
    (update_booking stTwoBookings 1 updPayload ≠ Except.error Err.conflict ∧
     ∀ b2 st2, update_booking stTwoBookings 1 updPayload = Except.ok (b2, st2) →
       st2.courts = stTwoBookings.courts ∧ st2.nextId = stTwoBookings.nextId ∧
       List.Forall₂ FrameEq stTwoBookings.bookings st2.bookings) :=
  ⟨by decide,
    update_mutates_only_price_paid_notes stTwoBookings 1 updPayload (by decide)⟩

/-- A $-5 booking request on an existing court. -/
def negPricePayload : BookingCreate := ⟨1, "carol", 0, 3600000000, -5, none, none⟩

def negPriceBooking : Booking :=
  ⟨1, 1, "carol", 0, 3600000000, -5, false, some 1, none, 0, none, "active"⟩

/-- C9 fails on the code: neither the schema nor `create_booking` validates
the price, so a creation request with `price = -5` succeeds and stores a
booking with negative price. -/
theorem negative_price_booking_created :
    create_booking (runOps [.addCourt courtOne]) negPricePayload (some 1) 0 =
      .ok (negPriceBooking, ⟨[courtOne], [negPriceBooking], 2⟩) ∧
    negPriceBooking.price < 0 := by
  exact ⟨by decide, by decide⟩

/-- The operations whose request payloads carry only non-negative prices. -/
def NonNegPricesOp : Op → Prop
  | .create p _ _ => 0 ≤ p.price
  | .update _ p => ∀ v, p.price = some v → 0 ≤ v
  | .cancel _ => True
  | .addCourt _ => True

theorem priceInv_applyOp (st : St) (op : Op) (hop : NonNegPricesOp op)
    (h : ∀ b ∈ st.bookings, 0 ≤ b.price) :
    ∀ b ∈ (applyOp st op).bookings, 0 ≤ b.price := by
  cases op with
  | addCourt c => exact h
  | create p uid now =>
    cases hcb : create_booking st p uid now with
    | error e =>
      have hred : applyOp st (.create p uid now) = st := by simp [applyOp, hcb]
      rw [hred]
      exact h
    | ok res =>
      obtain ⟨b, st2⟩ := res
      have hred : applyOp st (.create p uid now) = st2 := by simp [applyOp, hcb]
      rw [hred]
      obtain ⟨_, _, hb, hst2⟩ := create_booking_ok hcb
      subst hst2
      subst hb
      intro b2 hb2
      rw [List.mem_append, List.mem_singleton] at hb2
      rcases hb2 with hb2 | hb2
      · exact h b2 hb2
      · subst hb2
        exact hop
  | update bid p =>
    cases hub : update_booking st bid p with
    | error e =>
      have hred : applyOp st (.update bid p) = st := by simp [applyOp, hub]
      rw [hred]
      exact h
    | ok res =>
      obtain ⟨b2, st2⟩ := res
      have hred : applyOp st (.update bid p) = st2 := by simp [applyOp, hub]
      rw [hred]
      obtain ⟨b, hfind, hb2, hst2⟩ := update_booking_ok hub
      subst hst2
      intro x hx
      rw [List.mem_map] at hx
      obtain ⟨y, hy, rfl⟩ := hx
      by_cases hyb : (y.id == bid) = true
      · rw [if_pos hyb]
        subst hb2
        rw [applyUpdate_price]
        cases hp : p.price with
        | none => simpa using h b (List.mem_of_find?_eq_some hfind)
        | some v => simpa using hop v hp
      · rw [if_neg hyb]
        exact h y hy
  | cancel bid =>
    cases hdb : delete_booking st bid with
    | error e =>
      have hred : applyOp st (.cancel bid) = st := by simp [applyOp, hdb]
      rw [hred]
      exact h
    | ok st2 =>
      have hred : applyOp st (.cancel bid) = st2 := by simp [applyOp, hdb]
      rw [hred]
      have hst2 := delete_booking_ok hdb
      subst hst2
      intro x hx
      rw [List.mem_map] at hx
      obtain ⟨y, hy, rfl⟩ := hx
      by_cases hyb : (y.id == bid) = true
      · rw [if_pos hyb]
        exact h y hy
      · rw [if_neg hyb]
        exact h y hy

theorem priceInv_foldl (ops : List Op) :
    ∀ s : St, (∀ op ∈ ops, NonNegPricesOp op) → (∀ b ∈ s.bookings, 0 ≤ b.price) →
      ∀ b ∈ (ops.foldl applyOp s).bookings, 0 ≤ b.price := by
  induction ops with
  | nil => exact fun s _ hs => hs
  | cons op rest ih =>
    intro s hops hs
    exact ih _ (fun o ho => hops o (List.mem_cons_of_mem _ ho))
      (priceInv_applyOp s op (hops op (List.mem_cons_self _ _)) hs)

/-- C9 amended: the code never checks the sign of a price, so
non-negativity of stored prices holds exactly when every create payload
and every update price in the request history is non-negative. -/
theorem prices_nonneg_of_nonneg_inputs (ops : List Op)
    (h : ∀ op ∈ ops, NonNegPricesOp op) :
    ∀ b ∈ (runOps ops).bookings, 0 ≤ b.price :=
  priceInv_foldl ops initSt h (by simp [initSt])

theorem prices_nonneg_of_nonneg_inputs_witness :
    (∀ op ∈ opsTwoBookings, NonNegPricesOp op) ∧
    ∀ b ∈ (runOps opsTwoBookings).bookings, 0 ≤ b.price := by
  have hops : ∀ op ∈ opsTwoBookings, NonNegPricesOp op := by
    intro op hop
    simp only [opsTwoBookings, List.mem_cons, List.not_mem_nil, or_false] at hop
    rcases hop with rfl | rfl | rfl
    · trivial
    · show (0 : Rat) ≤ 20
      decide
    · show (0 : Rat) ≤ 30
      decide
  exact ⟨hops, prices_nonneg_of_nonneg_inputs opsTwoBookings hops⟩

/-- C10: listing bookings (with or without a date) and fetching one by id
take no principal at all (their signatures have no user argument, matching
the missing auth dependency in the source); they can only fail with
`BadRequest` resp. `NotFound`, never `Unauthorized` or `Forbidden`, and
they return the stored records unredacted — deleted bookings included. -/
theorem list_and_get_require_no_principal (st : St) (dp : DateParam) (bid : Int) :
    (∀ e2, list_bookings st dp = .error e2 → e2 = .badRequest) ∧
    (∀ bs, list_bookings st .absent = .ok bs → ∀ b, b ∈ bs ↔ b ∈ st.bookings) ∧
    (∀ d bs, list_bookings st (.valid d) = .ok bs →
      ∀ b, b ∈ bs ↔ (b ∈ st.bookings ∧
        dayStart d ≤ b.start_time ∧ b.start_time ≤ listDayEnd d)) ∧
    (∀ e2, get_booking st bid = .error e2 → e2 = .notFound) ∧
    (∀ b, get_booking st bid = .ok b → b ∈ st.bookings) := by
  refine ⟨?_, ?_, ?_, ?_, ?_⟩
  · intro e2 he
    cases dp with
    | invalid =>
      rw [list_bookings, Except.error.injEq] at he
      exact he.symm
    | absent => exact absurd he (by simp [list_bookings])
    | valid d => exact absurd he (by simp [list_bookings])
  · intro bs hbs b
    rw [list_bookings, Except.ok.injEq] at hbs
    subst hbs
    rw [sortByStart, List.mem_insertionSort]
  · intro d bs hbs b
    rw [list_bookings, Except.ok.injEq] at hbs
    subst hbs
    rw [sortByStart, List.mem_insertionSort, List.mem_filter]
    simp
  · intro e2 he
    unfold get_booking at he
    split at he
    · rw [Except.error.injEq] at he
      exact he.symm
    · exact absurd he (by simp)
  · intro b hb
    unfold get_booking at hb
    split at hb
    · exact absurd hb (by simp)
    · rename_i b1 hfind
      rw [Except.ok.injEq] at hb
      subst hb
      exact List.mem_of_find?_eq_some hfind

theorem list_and_get_require_no_principal_witness :
    (∀ e2, list_bookings stABCancelled .absent = .error e2 → e2 = .badRequest) ∧
    (∀ bs, list_bookings stABCancelled .absent = .ok bs →
      ∀ b, b ∈ bs ↔ b ∈ stABCancelled.bookings) ∧
    (∀ d bs, list_bookings stABCancelled (.valid d) = .ok bs →
      ∀ b, b ∈ bs ↔ (b ∈ stABCancelled.bookings ∧
        dayStart d ≤ b.start_time ∧ b.start_time ≤ listDayEnd d)) ∧
    (∀ e2, get_booking stABCancelled 1 = .error e2 → e2 = .notFound) ∧
    (∀ b, get_booking stABCancelled 1 = .ok b → b ∈ stABCancelled.bookings) :=
  list_and_get_require_no_principal stABCancelled .absent 1

/-! ## IEEE-754 float semantics of the report's revenue arithmetic (C6)

`Booking.price` is a Python `float` (IEEE-754 binary64) and
`generate_report` sums and subtracts floats, so every `+` and `-` of the
revenue arithmetic rounds.  The definitions below refine the exact-rational
`generate_report` with that rounding: a float value is represented by the
exact rational it denotes, and `flRound` is round-to-nearest, ties-to-even
at 53 significand bits.  Overflow to infinity and subnormal underflow are
outside the magnitudes considered here and are not modelled. -/

/-- Whether `2 ^ k ≤ x`, for a positive rational `x`, by integer
arithmetic only. -/
def pow2LE (k : Int) (x : Rat) : Bool :=
  if 0 ≤ k then x.den * 2 ^ k.toNat ≤ x.num.toNat
  else x.den ≤ x.num.toNat * 2 ^ (-k).toNat

/-- Fuel-bounded `⌊log₂ n⌋` on naturals (`0` for `n ≤ 1`); fuel `1200`
covers every numerator and denominator below `2 ^ 1200`. -/
def natLog2 : Nat → Nat → Nat
  | 0, _ => 0
  | fuel + 1, n => if n ≤ 1 then 0 else natLog2 fuel (n / 2) + 1

/-- `⌊log₂ x⌋` for a positive rational `x`. -/
def floorLog2 (x : Rat) : Int :=
  let c : Int := (natLog2 1200 x.num.toNat : Int) - (natLog2 1200 x.den : Int)
  if pow2LE c x then c else c - 1

/-- Round an exact rational to the nearest IEEE-754 binary64 value
(53 significand bits, ties to even), in the normal range. -/
def flRound (x : Rat) : Rat :=
  if x = 0 then 0
  else
    let e : Int := floorLog2 |x| - 52
    let nx : Nat := x.num.natAbs
    let dx : Nat := x.den
    let num : Nat := if 0 ≤ e then nx else nx * 2 ^ (-e).toNat
    let den : Nat := if 0 ≤ e then dx * 2 ^ e.toNat else dx
    let q : Nat := num / den
    let r : Nat := num % den
    let n2 : Nat :=
      if 2 * r < den then q
      else if den < 2 * r then q + 1
      else if q % 2 = 0 then q else q + 1
    let mag : Rat :=
      if 0 ≤ e then mkRat (Int.ofNat (n2 * 2 ^ e.toNat)) 1
      else mkRat (Int.ofNat n2) (2 ^ (-e).toNat)
    if x < 0 then -mag else mag

/-- One Python float addition: exact addition followed by rounding. -/
def fladd (x y : Rat) : Rat := flRound (x + y)

/-- One Python float subtraction. -/
def flsub (x y : Rat) : Rat := flRound (x - y)

/-- Python `sum` over floats: a left fold of float additions from `0.0`. -/
def flSum (l : List Rat) : Rat := l.foldl fladd 0

/-- The `defaultdict` accumulation step of `generate_report` under float
semantics: `+= b.price` is a float addition. -/
def bumpFl (key : Int) (price : Rat) : List (Int × DayAgg) → List (Int × DayAgg)
  | [] => [(key, ⟨1, fladd 0 price⟩)]
  | (k, a) :: rest =>
    if k == key then (k, ⟨a.count + 1, fladd a.revenue price⟩) :: rest
    else (k, a) :: bumpFl key price rest

/-- `reports_router.generate_report` with its revenue arithmetic given the
source's IEEE-754 evaluation; `generate_report` above is the exact-rational
idealisation of this function. -/
def generate_report_float (st : St) (s e : Date) (role : String) : Except Err Report :=
  if s > e then .error .badRequest
  else
    let bookings := st.bookings.filter (inReportRange s e)
    if ¬ (role == "admin") then
      let acts := bookings.filter (fun b => b.status == "active")
      .ok ⟨acts.length, 0, 0, 0, [], [], []⟩
    else
      let total := flSum (bookings.map Booking.price)
      let paid := flSum ((bookings.filter Booking.paid).map Booking.price)
      let unpaid := flsub total paid
      let per_day := bookings.foldl
        (fun m b => bumpFl (dateOf b.start_time) b.price m) []
      let per_court := bookings.foldl (fun m b => bumpFl b.court_id b.price m) []
      .ok ⟨bookings.length, total, paid, unpaid, per_day, per_court,
        bookings.map projBooking⟩

/-- Unfolding of the admin branch of `generate_report_float`. -/
theorem generate_report_float_admin (st : St) (s e : Date) (hse : s ≤ e) :
    generate_report_float st s e "admin" =
      .ok ⟨(matchedBookings st s e).length,
           flSum ((matchedBookings st s e).map Booking.price),
           flSum (((matchedBookings st s e).filter Booking.paid).map Booking.price),
           flsub (flSum ((matchedBookings st s e).map Booking.price))
             (flSum (((matchedBookings st s e).filter Booking.paid).map Booking.price)),
           (matchedBookings st s e).foldl
             (fun m b => bumpFl (dateOf b.start_time) b.price m) [],
           (matchedBookings st s e).foldl (fun m b => bumpFl b.court_id b.price m) [],
           (matchedBookings st s e).map projBooking⟩ := by
  unfold generate_report_float matchedBookings
  rw [if_neg (not_lt.mpr hse)]
  simp

theorem bumpFl_cons_eq (k : Int) (p : Rat) (a : DayAgg) (rest : List (Int × DayAgg)) :
    bumpFl k p ((k, a) :: rest) = (k, ⟨a.count + 1, fladd a.revenue p⟩) :: rest := by
  simp [bumpFl]

theorem bumpFl_cons_ne (k k1 : Int) (p : Rat) (a : DayAgg)
    (rest : List (Int × DayAgg)) (h : k1 ≠ k) :
    bumpFl k p ((k1, a) :: rest) = (k1, a) :: bumpFl k p rest := by
  simp [bumpFl, h]

theorem getAgg_bumpFl (m : List (Int × DayAgg)) (k k2 : Int) (p : Rat) :
    getAgg (bumpFl k p m) k2 =
      if k2 = k then ⟨(getAgg m k2).count + 1, fladd (getAgg m k2).revenue p⟩
      else getAgg m k2 := by
  induction m with
  | nil =>
    show getAgg [(k, ⟨1, fladd 0 p⟩)] k2 = _
    rw [getAgg_cons]
    by_cases h : k2 = k
    · subst h
      simp [getAgg]
    · simp [h, Ne.symm h, getAgg]
  | cons kv rest ih =>
    obtain ⟨k1, a⟩ := kv
    by_cases h1 : k1 = k
    · subst h1
      rw [bumpFl_cons_eq, getAgg_cons, getAgg_cons]
      by_cases h2 : k1 = k2
      · subst h2
        simp
      · simp [h2]
        rw [if_neg (fun h => h2 (Eq.symm h))]
    · rw [bumpFl_cons_ne k k1 p a rest h1, getAgg_cons, getAgg_cons, ih]
      split_ifs with h2 h3 h3
      · exact absurd (h3.symm.trans h2.symm).symm h1
      · rfl
      · rfl
      · rfl

theorem getAgg_foldl_bumpFl (key : Booking → Int) (bs : List Booking)
    (m : List (Int × DayAgg)) (k : Int) :
    getAgg (bs.foldl (fun m2 b => bumpFl (key b) b.price m2) m) k =
      ⟨(getAgg m k).count + (bs.filter (fun b => key b == k)).length,
       ((bs.filter (fun b => key b == k)).map Booking.price).foldl fladd
         (getAgg m k).revenue⟩ := by
  induction bs generalizing m with
  | nil => simp
  | cons b rest ih =>
    rw [List.foldl_cons, ih, getAgg_bumpFl]
    by_cases h : k = key b
    · have hkb : (key b == k) = true := by simp [h]
      rw [if_pos h]
      simp only [List.filter_cons, hkb, if_true, List.length_cons, List.map_cons,
        List.foldl_cons]
      refine congrArg₂ DayAgg.mk (by omega) rfl
    · have hkb : (key b == k) = false := by simp [Ne.symm h]
      rw [if_neg h]
      simp only [List.filter_cons, hkb, Bool.false_eq_true, if_false]

/-- Read the payload of a successful report; irrelevant default otherwise. -/
def okReport (x : Except Err Report) : Report :=
  match x with
  | .ok r => r
  | .error _ => ⟨0, 0, 0, 0, [], [], []⟩

def isOkE (x : Except Err Report) : Bool :=
  match x with
  | .ok _ => true
  | .error _ => false

/-- A paid booking priced `2 ^ (-60)` (an exactly representable binary64
value) next to an unpaid booking priced `1`, same court, same day. -/
def payloadTiny : BookingCreate :=
  ⟨1, "tina", 0, 3600000000, mkRat 1 1152921504606846976, some true, none⟩

def payloadOne : BookingCreate := ⟨1, "uma", 3600000000, 7200000000, 1, none, none⟩

def stFloatPair : St :=
  runOps [.addCourt courtOne, .create payloadTiny (some 1) 0,
    .create payloadOne (some 1) 0]

set_option maxRecDepth 2400 in
theorem matchedFloatPair :
    matchedBookings stFloatPair 0 0 =
      [⟨1, 1, "tina", 0, 3600000000, mkRat 1 1152921504606846976, true, some 1,
        none, 0, none, "active"⟩,
       ⟨2, 1, "uma", 3600000000, 7200000000, 1, false, some 1, none, 0, none,
        "active"⟩] := by
  with_unfolding_all rfl

set_option maxRecDepth 2400 in
theorem floatPairReport :
    generate_report_float stFloatPair 0 0 "admin" =
      .ok ⟨2, 1, mkRat 1 1152921504606846976, 1, [(0, ⟨2, 1⟩)], [(1, ⟨2, 1⟩)],
           [⟨1, 1, 0, 3600000000, mkRat 1 1152921504606846976, true, "active"⟩,
            ⟨2, 1, 3600000000, 7200000000, 1, false, "active"⟩]⟩ := by
  rw [generate_report_float_admin stFloatPair 0 0 (by decide), matchedFloatPair]
  with_unfolding_all rfl

set_option maxRecDepth 2400 in
/-- C6 fails on the float program: for the reachable state with a paid
booking priced `2 ^ (-60)` and an unpaid booking priced `1`, the reported
day-0 admin totals are `total_revenue = fl(2 ^ (-60) + 1) = 1`,
`paid_amount = 2 ^ (-60)`, `unpaid_amount = fl(1 - 2 ^ (-60)) = 1`, and
`total_revenue ≠ paid_amount + unpaid_amount`. -/
theorem float_report_violates_total_split :
    isOkE (generate_report_float stFloatPair 0 0 "admin") = true ∧
    (okReport (generate_report_float stFloatPair 0 0 "admin")).total_revenue = 1 ∧
    (okReport (generate_report_float stFloatPair 0 0 "admin")).paid_amount =
      mkRat 1 1152921504606846976 ∧
    (okReport (generate_report_float stFloatPair 0 0 "admin")).unpaid_amount = 1 ∧
    ¬ ((okReport (generate_report_float stFloatPair 0 0 "admin")).total_revenue =
       (okReport (generate_report_float stFloatPair 0 0 "admin")).paid_amount +
       (okReport (generate_report_float stFloatPair 0 0 "admin")).unpaid_amount) := by
  rw [floatPairReport]
  refine ⟨rfl, rfl, rfl, rfl, ?_⟩
  with_unfolding_all decide

/-- C6 amended: under the source's float semantics, `per_day[d].revenue`
is the float accumulation of `price` over matched bookings whose start
date is `d`; `unpaid_amount` is the rounded difference
`fl(total_revenue - paid_amount)`, so the identity
`total_revenue = paid_amount + unpaid_amount` holds exactly when that
subtraction rounds exactly — not for every input. -/
theorem report_per_day_revenue_float (st : St) (s e : Date) (hse : s ≤ e)
    (r : Report) (h : generate_report_float st s e "admin" = .ok r) (d : Date) :
    (getAgg r.per_day d).revenue =
      flSum (((matchedBookings st s e).filter
        (fun b => dateOf b.start_time == d)).map Booking.price) ∧
    r.unpaid_amount = flsub r.total_revenue r.paid_amount ∧
    (flsub r.total_revenue r.paid_amount = r.total_revenue - r.paid_amount →
      r.total_revenue = r.paid_amount + r.unpaid_amount) := by
  rw [generate_report_float_admin st s e hse, Except.ok.injEq] at h
  subst h
  refine ⟨?_, rfl, ?_⟩
  · rw [getAgg_foldl_bumpFl (fun b => dateOf b.start_time) (matchedBookings st s e) [] d]
    rfl
  · intro hex
    show flSum _ = flSum _ + flsub (flSum _) (flSum _)
    rw [hex]
    ring

/-- Court 1 with the single $20 paid booking of day 0. -/
def stOneBooking : St := runOps [.addCourt courtOne, .create payloadA (some 1) 0]

/-- The float admin report over `stOneBooking` (all operations exact). -/
def reportOneFl : Report :=
  ⟨1, 20, 20, 0, [(0, ⟨1, 20⟩)], [(1, ⟨1, 20⟩)],
   [⟨1, 1, 0, 3600000000, 20, true, "active"⟩]⟩

set_option maxRecDepth 2400 in
theorem matchedOneBooking :
    matchedBookings stOneBooking 0 0 =
      [⟨1, 1, "alice", 0, 3600000000, 20, true, some 1, none, 0, none, "active"⟩] := by
  with_unfolding_all rfl

set_option maxRecDepth 2400 in
theorem floatReportOne :
    generate_report_float stOneBooking 0 0 "admin" = .ok reportOneFl := by
  rw [generate_report_float_admin stOneBooking 0 0 (by decide), matchedOneBooking]
  with_unfolding_all rfl

theorem report_per_day_revenue_float_witness :
    (0 : Int) ≤ 0 ∧
    generate_report_float stOneBooking 0 0 "admin" = .ok reportOneFl ∧
    ((getAgg reportOneFl.per_day 0).revenue =
      flSum (((matchedBookings stOneBooking 0 0).filter
        (fun b => dateOf b.start_time == 0)).map Booking.price) ∧
     reportOneFl.unpaid_amount = flsub reportOneFl.total_revenue reportOneFl.paid_amount ∧
     (flsub reportOneFl.total_revenue reportOneFl.paid_amount =
        reportOneFl.total_revenue - reportOneFl.paid_amount →
      reportOneFl.total_revenue = reportOneFl.paid_amount + reportOneFl.unpaid_amount)) :=
  ⟨by decide, floatReportOne,
    report_per_day_revenue_float stOneBooking 0 0 (by decide) reportOneFl
      floatReportOne 0⟩

end PadelPoint
